import Mathlib

/-!
Verification development for the roo-code memory-bank MCP server
(`src/index.ts`).  Document bodies are embedded as `List Char`; the
filesystem visible to the server is embedded as an explicit state
(`FS`).  All definitions are translated from the TypeScript source;
definitions whose names start with `spec` restate the wording of the
natural-language specification for comparison with the source-derived
functions.
-/

set_option maxRecDepth 8000

namespace MemoryBank

/-- Character-level whitespace test used by the JavaScript `trimStart` /
`trimEnd` methods, restricted to the ASCII whitespace characters
(space, tab, line feed, carriage return, vertical tab, form feed); the
documents handled by the server only contain ASCII whitespace. -/
def isWS (c : Char) : Bool :=
  c == ' ' || c == '\t' || c == '\n' || c == '\r' || c == '\x0b' || c == '\x0c'

/-- JavaScript `String.prototype.trimStart`. -/
def trimStart (s : List Char) : List Char := s.dropWhile isWS

/-- JavaScript `String.prototype.trimEnd`. -/
def trimEnd (s : List Char) : List Char := (s.reverse.dropWhile isWS).reverse

/-- Does `pat` occur at the very beginning of `s`? -/
def matchAt : List Char → List Char → Bool
  | _, [] => true
  | [], _ :: _ => false
  | c :: s, p :: pat => c == p && matchAt s pat

/-- Index of the first occurrence of `pat` in `s`
(JavaScript `s.indexOf(pat)`, with `none` standing for `-1`). -/
def subIndex (pat : List Char) : List Char → Option Nat
  | [] => if matchAt [] pat then some 0 else none
  | c :: s => if matchAt (c :: s) pat then some 0 else (subIndex pat s).map (· + 1)

/-- JavaScript `s.indexOf(pat, start)` for the in-range start positions
used by the source (the source only searches from `start ≤ s.length`). -/
def indexOfFrom (s pat : List Char) (start : Nat) : Option Nat :=
  (subIndex pat (s.drop start)).map (· + start)

/-- Does `s` contain `pat` as a contiguous substring? -/
def containsSub (s pat : List Char) : Bool := (subIndex pat s).isSome

/-- JavaScript `String.prototype.replace` with a plain-string pattern:
only the first occurrence is replaced (the replacement strings used by
the source contain no dollar patterns). -/
def replaceFirst (s pat repl : List Char) : List Char :=
  match subIndex pat s with
  | some i => s.take i ++ repl ++ s.drop (i + pat.length)
  | none => s

/-- The bootstrap catalog `INITIAL_FILES` of `src/index.ts`, as an
association list from file name to template body (the template bodies
are the exact string literals of the source). -/
def INITIAL_FILES : List (String × List Char) :=
  [("productContext.md",
    "# Product Context\n\nThis file provides a high-level overview...\n\n*".data),
   ("activeContext.md",
    "# Active Context\n\nThis file tracks the project\x27s current status...\n\n*".data),
   ("progress.md",
    "# Progress\n\nThis file tracks the project\x27s progress...\n\n*".data),
   ("decisionLog.md",
    "# Decision Log\n\nThis file records architectural and implementation decisions...\n\n*".data),
   ("systemPatterns.md",
    "# System Patterns *Optional*\n\nThis file documents recurring patterns...\n\n*".data)]

/-- The timestamp placeholder searched for by the template substitution
(`template.replace(..., getCurrentTimestamp())` in the source). -/
def tsPlaceholder : List Char := "YYYY-MM-DD HH:MM:SS".data

/-- The filesystem state visible to the server: whether the memory-bank
directory exists, the files inside it (name to contents, in creation
order), and the names whose reads and writes fail with a non-ENOENT
I/O error (modelling, e.g., permission failures; a name not listed in
`broken` reads and writes normally, a missing one raising ENOENT). -/
structure FS where
  dirExists : Bool
  files : List (String × List Char)
  broken : List String
deriving DecidableEq

/-- Contents of a file in the memory-bank directory, `none` when the
file does not exist (ENOENT). -/
def lookupFile : List (String × List Char) → String → Option (List Char)
  | [], _ => none
  | (n, c) :: rest, name => if n = name then some c else lookupFile rest name

/-- `fs.writeFile`: full rewrite, creating the file if absent. -/
def setFile : List (String × List Char) → String → List Char → List (String × List Char)
  | [], name, content => [(name, content)]
  | (n, c) :: rest, name, content =>
    if n = name then (n, content) :: rest else (n, c) :: setFile rest name content

/-- `fs.appendFile`: append to the end of the file, creating it with
just the appended data if it does not exist. -/
def appendData (files : List (String × List Char)) (name : String) (data : List Char) :
    List (String × List Char) :=
  setFile files name (((lookupFile files name).getD []) ++ data)

/-- `_ensureInitialized` of `src/index.ts`: if the memory-bank directory
exists, do nothing; otherwise create it and write each catalog template
whose file does not yet exist, with the timestamp placeholder
substituted by the current time.  The model assumes the initialization
writes themselves succeed (the claims under analysis never make a
catalog write fail during initialization). -/
def ensureInitialized (now : List Char) (fs : FS) : FS :=
  if fs.dirExists then fs
  else
    { dirExists := true
      files := INITIAL_FILES.foldl
        (fun acc p =>
          if (lookupFile acc p.1).isSome then acc
          else setFile acc p.1 (replaceFirst p.2 tsPlaceholder now))
        fs.files
      broken := fs.broken }

/-- The formatted entry of `appendMemoryBank`:
the source builds the string made of a newline, the timestamp in square
brackets, a dash, the entry text, and a final newline. -/
def formatEntry (now entryText : List Char) : List Char :=
  '\n' :: '[' :: (now ++ ']' :: ' ' :: '-' :: ' ' :: (entryText ++ ['\n']))

/-- The section-boundary pattern the source searches for after a matched
header: a newline followed by two hash signs. -/
def nlHH : List Char := ['\n', '#', '#']

/-- The body used when the target of a section append does not exist:
the catalog template with the timestamp placeholder substituted when
the file name is in `INITIAL_FILES`, else the empty string
(lines 209-212 of `src/index.ts`). -/
def seedFor (name : String) (now : List Char) : List Char :=
  match lookupFile INITIAL_FILES name with
  | some t => replaceFirst t tsPlaceholder now
  | none => []

/-- The in-body part of the section branch of `appendMemoryBank`
(lines 218-223): when the header occurs, splice the trimmed entry in
front of the next section boundary (or at end of body); `none` when the
header does not occur in the body. -/
def sectionUpdate (body header formatted : List Char) : Option (List Char) :=
  match subIndex header body with
  | some h =>
    let insertAt := (indexOfFrom body nlHH (h + header.length)).getD body.length
    some (trimEnd (body.take insertAt) ++ '\n' :: (trimStart formatted ++ body.drop insertAt))
  | none => none

/-- Processing of one target of `appendMemoryBank` (the body of the
`for` loop, lines 198-235).  The Boolean is the per-target status,
`true` for success.  A `broken` name makes the first filesystem call on
it throw, which the loop catches into a per-target error; the JavaScript
truthiness guard on `section_header` sends an empty header to the plain
append branch. -/
def processEntry (now : List Char) (fs : FS) (name : String) (entryText : List Char)
    (sectionHeader : Option (List Char)) : FS × Bool :=
  let formatted := formatEntry now entryText
  if fs.broken.contains name then (fs, false)
  else
    match sectionHeader with
    | some hdr =>
      if hdr.isEmpty then ({ fs with files := appendData fs.files name formatted }, true)
      else
        let body := (lookupFile fs.files name).getD (seedFor name now)
        match sectionUpdate body hdr formatted with
        | some updated => ({ fs with files := setFile fs.files name updated }, true)
        | none =>
          ({ fs with files := appendData fs.files name ('\n' :: (hdr ++ '\n' :: formatted)) },
           true)
    | none => ({ fs with files := appendData fs.files name formatted }, true)

/-- One raw target of an `append_memory_bank` call, before validation:
each field may be missing from the request object. -/
structure RawEntry where
  file_name : Option String
  entry : Option (List Char)
  section_header : Option (List Char)
deriving DecidableEq

/-- Outcome of an `append_memory_bank` call: the whole-call validation
error, or one (file, status) result per target. -/
inductive AppendResult
  | invalid
  | results (rs : List (String × Bool))
deriving DecidableEq

/-- The upfront validation of `appendMemoryBank` (line 192): every
entry must carry a `file_name` string and an `entry` string. -/
def validEntry (e : RawEntry) : Bool := e.file_name.isSome && e.entry.isSome

/-- `appendMemoryBank` of `src/index.ts`: ensure the store, validate the
whole batch shape, then process the targets in order, collecting one
result per target.  `input = none` models a request without a usable
`entries` array. -/
def appendMemoryBank (now : List Char) (fs : FS) (input : Option (List RawEntry)) :
    FS × AppendResult :=
  let fs1 := ensureInitialized now fs
  match input with
  | none => (fs1, AppendResult.invalid)
  | some entries =>
    if entries.all validEntry then
      let out := entries.foldl
        (fun (acc : FS × List (String × Bool)) (e : RawEntry) =>
          let name := e.file_name.getD ""
          let r := processEntry now acc.1 name (e.entry.getD []) e.section_header
          (r.1, acc.2 ++ [(name, r.2)]))
        (fs1, [])
      (out.1, AppendResult.results out.2)
    else (fs1, AppendResult.invalid)

/-- Outcome of a `read_memory_bank` call: the listing of `.md` files
(no names requested), or one content-or-null per requested name. -/
inductive ReadResult
  | listing (files : List String)
  | contents (m : List (String × Option (List Char)))
deriving DecidableEq

/-- Reading one file inside `readMemoryBank`: any read failure (missing
file or broken file) is caught and turned into `none`. -/
def readFileOpt (fs : FS) (name : String) : Option (List Char) :=
  if fs.broken.contains name then none else lookupFile fs.files name

/-- `readMemoryBank` of `src/index.ts`: ensure the store; with no names
(or an empty list) list the `.md` files of the directory, otherwise map
each requested name to its contents or `null`. -/
def readMemoryBank (now : List Char) (fs : FS) (fileNames : Option (List String)) :
    FS × ReadResult :=
  let fs1 := ensureInitialized now fs
  match fileNames with
  | none =>
    (fs1, ReadResult.listing ((fs1.files.map Prod.fst).filter (fun n => n.endsWith ".md")))
  | some [] =>
    (fs1, ReadResult.listing ((fs1.files.map Prod.fst).filter (fun n => n.endsWith ".md")))
  | some names => (fs1, ReadResult.contents (names.map (fun n => (n, readFileOpt fs1 n))))

/-- A broken-down clock reading: calendar date and time of day with
millisecond precision. -/
structure DateFields where
  year : Nat
  month : Nat
  day : Nat
  hour : Nat
  minute : Nat
  second : Nat
  millis : Nat
deriving DecidableEq

/-- A JavaScript `Date` as two broken-down readings of one instant: the
UTC fields (which `toISOString` renders) and the local-timezone fields
(which the plain `get*` accessors would render).  The timezone offset
relating them is irrelevant to the claims and left abstract. -/
structure JsDate where
  utc : DateFields
  localFields : DateFields
deriving DecidableEq

/-- One decimal digit as a character. -/
def digitChar : Nat → Char
  | 0 => '0' | 1 => '1' | 2 => '2' | 3 => '3' | 4 => '4'
  | 5 => '5' | 6 => '6' | 7 => '7' | 8 => '8' | 9 => '9'
  | _ => '?'

/-- Two-digit zero-padded decimal rendering (exact for `n ≤ 99`). -/
def pad2 (n : Nat) : List Char := [digitChar (n / 10 % 10), digitChar (n % 10)]

/-- Three-digit zero-padded decimal rendering (exact for `n ≤ 999`). -/
def pad3 (n : Nat) : List Char :=
  [digitChar (n / 100 % 10), digitChar (n / 10 % 10), digitChar (n % 10)]

/-- Four-digit zero-padded decimal rendering (exact for `n ≤ 9999`). -/
def pad4 (n : Nat) : List Char :=
  [digitChar (n / 1000 % 10), digitChar (n / 100 % 10), digitChar (n / 10 % 10),
   digitChar (n % 10)]

/-- `Date.prototype.toISOString`: the UTC fields rendered as
`YYYY-MM-DDTHH:MM:SS.sssZ`, faithful for the years 0 to 9999 (outside
that range the real method switches to expanded six-digit years). -/
def toISOString (d : JsDate) : List Char :=
  pad4 d.utc.year ++ '-' :: pad2 d.utc.month ++ '-' :: pad2 d.utc.day ++
    'T' :: pad2 d.utc.hour ++ ':' :: pad2 d.utc.minute ++ ':' :: pad2 d.utc.second ++
    '.' :: pad3 d.utc.millis ++ ['Z']

/-- `getCurrentTimestamp` of `src/index.ts`: take `toISOString`, replace
the first `T` by a space, and keep the first 19 characters. -/
def getCurrentTimestamp (d : JsDate) : List Char :=
  (replaceFirst (toISOString d) ['T'] [' ']).take 19

/-- Rendering a broken-down clock reading in the format the spec writes
as `YYYY-MM-DD HH:MM:SS` (second precision, no timezone suffix); used to
compare the code output against the UTC and against the local reading. -/
def renderTimestamp (f : DateFields) : List Char :=
  pad4 f.year ++ '-' :: pad2 f.month ++ '-' :: pad2 f.day ++
    ' ' :: pad2 f.hour ++ ':' :: pad2 f.minute ++ ':' :: pad2 f.second

/-- Splitting a file name on the path separator, helper for the
`path.join` model. -/
def splitSegsAux : List Char → List Char → List (List Char)
  | [], cur => [cur.reverse]
  | c :: rest, cur =>
    if c == '/' then cur.reverse :: splitSegsAux rest []
    else splitSegsAux rest (c :: cur)

/-- The path segments of a file name (split on the POSIX separator). -/
def splitSegs (s : List Char) : List (List Char) := splitSegsAux s []

/-- One normalization step of Node `path.join`: empty and dot segments
disappear, a dot-dot segment removes the previously accumulated segment,
any other segment is appended. -/
def joinStep (acc : List (List Char)) (seg : List Char) : List (List Char) :=
  if seg = [] ∨ seg = ['.'] then acc
  else if seg = ['.', '.'] then acc.dropLast
  else acc ++ [seg]

/-- Node `path.join(root, name)` on POSIX paths, with the root directory
given as its (already normalized, absolute) list of segments: the joined
path is normalized segment by segment.  This embeds the
`path.join(MEMORY_BANK_PATH, fileName)` calls of lines 175 and 199 of
`src/index.ts`. -/
def resolvePath (root : List (List Char)) (name : List Char) : List (List Char) :=
  (splitSegs name).foldl joinStep root

theorem matchAt_iff (s pat : List Char) : matchAt s pat = true ↔ pat <+: s := by
  induction pat generalizing s with
  | nil => cases s <;> simp [matchAt]
  | cons p pt ih =>
    cases s with
    | nil => simp [matchAt]
    | cons c s =>
      simp only [matchAt, Bool.and_eq_true, beq_iff_eq, ih, List.cons_prefix_cons]
      exact ⟨fun hx => ⟨hx.1.symm, hx.2⟩, fun hx => ⟨hx.1.symm, hx.2⟩⟩

theorem subIndex_some_occurs {pat s : List Char} {i : Nat} (h : subIndex pat s = some i) :
    pat <+: s.drop i := by
  induction s generalizing i with
  | nil =>
    by_cases hm : matchAt [] pat = true
    · simp [subIndex, hm] at h
      subst h
      simpa using (matchAt_iff [] pat).mp hm
    · simp [subIndex, hm] at h
  | cons c s ih =>
    by_cases hm : matchAt (c :: s) pat = true
    · simp [subIndex, hm] at h
      subst h
      simpa using (matchAt_iff (c :: s) pat).mp hm
    · simp [subIndex, hm] at h
      obtain ⟨a, ha, rfl⟩ := h
      simpa using ih ha

theorem subIndex_some_min {pat s : List Char} {i : Nat} (h : subIndex pat s = some i) :
    ∀ j, j < i → ¬ pat <+: s.drop j := by
  induction s generalizing i with
  | nil =>
    by_cases hm : matchAt [] pat = true
    · simp [subIndex, hm] at h
      subst h
      intro j hj
      omega
    · simp [subIndex, hm] at h
  | cons c s ih =>
    by_cases hm : matchAt (c :: s) pat = true
    · simp [subIndex, hm] at h
      subst h
      intro j hj
      omega
    · simp [subIndex, hm] at h
      obtain ⟨a, ha, rfl⟩ := h
      intro j hj
      cases j with
      | zero =>
        simpa using fun hp => hm ((matchAt_iff (c :: s) pat).mpr hp)
      | succ j =>
        simpa using ih ha j (by omega)

theorem subIndex_none {pat s : List Char} (h : subIndex pat s = none) :
    ∀ j, ¬ pat <+: s.drop j := by
  induction s with
  | nil =>
    by_cases hm : matchAt [] pat = true
    · simp [subIndex, hm] at h
    · intro j
      simpa using fun hp => hm ((matchAt_iff [] pat).mpr hp)
  | cons c s ih =>
    by_cases hm : matchAt (c :: s) pat = true
    · simp [subIndex, hm] at h
    · simp [subIndex, hm] at h
      intro j
      cases j with
      | zero => simpa using fun hp => hm ((matchAt_iff (c :: s) pat).mpr hp)
      | succ j => simpa using ih h j

theorem subIndex_of_first {pat s : List Char} {h : Nat}
    (h1 : pat <+: s.drop h) (h2 : ∀ j, j < h → ¬ pat <+: s.drop j) :
    subIndex pat s = some h := by
  cases hs : subIndex pat s with
  | none => exact absurd h1 (subIndex_none hs h)
  | some i =>
    have hi1 := subIndex_some_occurs hs
    have hi2 := subIndex_some_min hs
    have hA : ¬ i < h := fun hlt => h2 i hlt hi1
    have hB : ¬ h < i := fun hlt => hi2 h hlt h1
    have : i = h := by omega
    rw [this]

theorem occurs_lt_length {pat s : List Char} {j : Nat} (hp : pat ≠ [])
    (h : pat <+: s.drop j) : j < s.length := by
  by_contra hle
  push_neg at hle
  rw [List.drop_eq_nil_iff.mpr hle] at h
  exact hp (List.prefix_nil.mp h)

theorem indexOfFrom_of_first {s pat : List Char} {start iAt : Nat}
    (hle : start ≤ iAt) (h1 : pat <+: s.drop iAt)
    (h2 : ∀ j, j < iAt → start ≤ j → ¬ pat <+: s.drop j) :
    indexOfFrom s pat start = some iAt := by
  have key : subIndex pat (s.drop start) = some (iAt - start) := by
    apply subIndex_of_first
    · rw [List.drop_drop]
      have heq : start + (iAt - start) = iAt := by omega
      rw [heq]
      exact h1
    · intro j hj
      rw [List.drop_drop]
      exact h2 (start + j) (by omega) (by omega)
  simp [indexOfFrom, key]
  omega

theorem indexOfFrom_none {s pat : List Char} {start : Nat} (hp : pat ≠ [])
    (h : ∀ j, j < s.length → start ≤ j → ¬ pat <+: s.drop j) :
    indexOfFrom s pat start = none := by
  cases hs : subIndex pat (s.drop start) with
  | none => simp [indexOfFrom, hs]
  | some i =>
    exfalso
    have h1 := subIndex_some_occurs hs
    rw [List.drop_drop] at h1
    have hlt := occurs_lt_length hp h1
    exact h (start + i) hlt (by omega) h1

theorem lookupFile_setFile (files : List (String × List Char)) (name : String)
    (content : List Char) : lookupFile (setFile files name content) name = some content := by
  induction files with
  | nil => simp [setFile, lookupFile]
  | cons p rest ih =>
    obtain ⟨n, c⟩ := p
    by_cases hn : n = name
    · simp [setFile, lookupFile, hn]
    · simp [setFile, lookupFile, hn, ih]

theorem ensureInitialized_of_dirExists {fs : FS} (now : List Char) (h : fs.dirExists = true) :
    ensureInitialized now fs = fs := by
  simp [ensureInitialized, h]

/-- Spec wording: `pat` occurs in `body` at index `i` as an exact
substring. -/
def specOccursAt (body pat : List Char) (i : Nat) : Prop := pat <+: body.drop i

instance (body pat : List Char) (i : Nat) : Decidable (specOccursAt body pat i) := by
  unfold specOccursAt
  infer_instance

/-- Spec wording: `h` is the index of the first exact-substring
occurrence of `pat` in `body`. -/
def specFirstOccurrence (body pat : List Char) (h : Nat) : Prop :=
  specOccursAt body pat h ∧ ∀ j, j < h → ¬ specOccursAt body pat j

instance (body pat : List Char) (h : Nat) : Decidable (specFirstOccurrence body pat h) := by
  unfold specFirstOccurrence
  infer_instance

/-- Spec wording for the insertion point: `iAt` is the position of the
next newline-hash-hash boundary at or after `start`, or the length of
the body when no boundary occurs at or after `start` (the quantifiers
are bounded by the body length, which loses nothing because the
three-character boundary pattern cannot occur at or past the end). -/
def specInsertAt (body : List Char) (start iAt : Nat) : Prop :=
  (start ≤ iAt ∧ specOccursAt body nlHH iAt ∧
    ∀ j, j < iAt → start ≤ j → ¬ specOccursAt body nlHH j) ∨
  (iAt = body.length ∧ ∀ j, j < body.length → start ≤ j → ¬ specOccursAt body nlHH j)

instance (body : List Char) (start iAt : Nat) : Decidable (specInsertAt body start iAt) := by
  unfold specInsertAt
  infer_instance

theorem sectionUpdate_eq_splice {body hdr fmt : List Char} {h iAt : Nat}
    (hfirst : specFirstOccurrence body hdr h)
    (hins : specInsertAt body (h + hdr.length) iAt) :
    sectionUpdate body hdr fmt =
      some (trimEnd (body.take iAt) ++ '\n' :: (trimStart fmt ++ body.drop iAt)) := by
  obtain ⟨h1, h2⟩ := hfirst
  have hs : subIndex hdr body = some h := subIndex_of_first h1 h2
  have hins2 : (indexOfFrom body nlHH (h + hdr.length)).getD body.length = iAt := by
    rcases hins with ⟨hle, ho, hmin⟩ | ⟨heq, hnone⟩
    · rw [indexOfFrom_of_first hle ho hmin]
      rfl
    · rw [indexOfFrom_none (by decide) hnone]
      simpa using heq.symm
  simp [sectionUpdate, hs, hins2]

/-- C1 (amended): for a body holding the header, the section-aware
append locates the first exact-substring occurrence of the header at
index `h`, takes as insertion point the next occurrence of a
newline-hash-hash boundary at or after `h` plus the header length (or
the end of the body when none exists), and writes, as the full new
content, the trimmed prefix of the body up to the insertion point, a
newline, the formatted entry with its leading whitespace removed, and
the rest of the body.  For the example of the claim the written content
is `## Decision\nA\n[ts] - C\n\n## Progress\nB`, with a blank line
before `## Progress` (not the single newline the claim shows). -/
theorem c1_sectionAppend_splice :
    ∀ (now : List Char) (fs : FS) (name : String) (entryText hdr body : List Char)
      (h iAt : Nat),
      fs.broken.contains name = false →
      lookupFile fs.files name = some body →
      hdr.isEmpty = false →
      specFirstOccurrence body hdr h →
      specInsertAt body (h + hdr.length) iAt →
      processEntry now fs name entryText (some hdr) =
        ({ fs with files := setFile fs.files name
                              (trimEnd (body.take iAt) ++ '\n' ::
                                (trimStart (formatEntry now entryText) ++ body.drop iAt)) },
         true) := by
  intro now fs name entryText hdr body h iAt hb hl he hf hi
  have hb2 : ¬ name ∈ fs.broken := by simpa using hb
  simp [processEntry, hb2, hl, he, sectionUpdate_eq_splice hf hi]

/-- C1 witness: the splice theorem applied to the example of the claim,
with the timestamp fixed to `2025-01-01 00:00:00`; the full new content
shows the blank line between the inserted entry and `## Progress`. -/
theorem c1_sectionAppend_splice_witness :
    processEntry "2025-01-01 00:00:00".data
      ⟨true, [("decisionLog.md", "## Decision\nA\n## Progress\nB".data)], []⟩
      "decisionLog.md" "C".data (some "## Decision".data)
      = (⟨true,
          [("decisionLog.md",
            "## Decision\nA\n[2025-01-01 00:00:00] - C\n\n## Progress\nB".data)], []⟩,
         true) := by
  have h := c1_sectionAppend_splice "2025-01-01 00:00:00".data
    ⟨true, [("decisionLog.md", "## Decision\nA\n## Progress\nB".data)], []⟩
    "decisionLog.md" "C".data "## Decision".data
    "## Decision\nA\n## Progress\nB".data 0 13
    (by decide) (by decide) (by decide) (by decide) (by decide)
  rw [h]
  decide

/-- C1 counterexample: on the exact example of the claim (body
`## Decision\nA\n## Progress\nB`, header `## Decision`, entry `C`,
timestamp `2025-01-01 00:00:00`) the written content does not contain
the string `## Decision\nA\n[ts] - C\n## Progress\nB` the claim
asserts: the code leaves a blank line before `## Progress`, because the
trimmed entry keeps its final newline and the body suffix starts with
the boundary newline. -/
theorem c1_sectionAppend_claim_false :
    containsSub
      ((lookupFile
          (processEntry "2025-01-01 00:00:00".data
            ⟨true, [("decisionLog.md", "## Decision\nA\n## Progress\nB".data)], []⟩
            "decisionLog.md" "C".data (some "## Decision".data)).1.files
          "decisionLog.md").getD [])
      "## Decision\nA\n[2025-01-01 00:00:00] - C\n## Progress\nB".data = false := by
  decide

/-- C5: initialization is idempotent and asymmetric: when the directory
already exists nothing at all is changed, whatever files are present or
missing; and a second initialization after any first one changes
nothing (in particular on an initially empty root). -/
theorem c5_ensureInitialized_idempotent :
    (∀ (now : List Char) (files : List (String × List Char)) (broken : List String),
      ensureInitialized now ⟨true, files, broken⟩ = ⟨true, files, broken⟩) ∧
    (∀ (now now2 : List Char) (fs : FS),
      ensureInitialized now2 (ensureInitialized now fs) = ensureInitialized now fs) := by
  constructor
  · intro now files broken
    simp [ensureInitialized]
  · intro now now2 fs
    have hd : (ensureInitialized now fs).dirExists = true := by
      by_cases h : fs.dirExists = true <;> simp [ensureInitialized, h]
    exact ensureInitialized_of_dirExists now2 hd

/-- C6: appending without a section header appends the formatted entry
verbatim: on an existing body the new content is the old body followed
by the formatted entry (so the old body is a prefix and the length
grows by exactly the length of the formatted entry), and on a missing
file the new content is the formatted entry alone, with no bootstrap
template prepended. -/
theorem c6_plain_append :
    ∀ (now : List Char) (fs : FS) (name : String) (entryText : List Char),
      fs.broken.contains name = false →
      processEntry now fs name entryText none =
        ({ fs with files := setFile fs.files name
                              (((lookupFile fs.files name).getD []) ++
                                formatEntry now entryText) },
         true) ∧
      (∀ body, lookupFile fs.files name = some body →
        lookupFile (processEntry now fs name entryText none).1.files name =
            some (body ++ formatEntry now entryText) ∧
          body <+: body ++ formatEntry now entryText ∧
          (body ++ formatEntry now entryText).length =
            body.length + (formatEntry now entryText).length) ∧
      (lookupFile fs.files name = none →
        lookupFile (processEntry now fs name entryText none).1.files name =
          some (formatEntry now entryText)) := by
  intro now fs name entryText hb
  have hb2 : ¬ name ∈ fs.broken := by simpa using hb
  refine ⟨by simp [processEntry, hb2, appendData], ?_, ?_⟩
  · intro body hl
    simp [processEntry, hb2, appendData, hl, lookupFile_setFile]
  · intro hl
    simp [processEntry, hb2, appendData, hl, lookupFile_setFile]

/-- C6 witness: plain append on an existing one-line file and on a
missing file, at the concrete timestamp `2025-01-01 00:00:00`. -/
theorem c6_plain_append_witness :
    lookupFile
        (processEntry "2025-01-01 00:00:00".data ⟨true, [("progress.md", "P".data)], []⟩
          "progress.md" "done".data none).1.files "progress.md" =
      some ("P\n[2025-01-01 00:00:00] - done\n".data) := by
  have hmain := c6_plain_append "2025-01-01 00:00:00".data
    ⟨true, [("progress.md", "P".data)], []⟩ "progress.md" "done".data (by decide)
  have h2 := hmain.2.1 "P".data (by decide)
  rw [h2.1]
  decide

/-- C2 (amended): a batch containing a shape-malformed target (missing
`file_name` or `entry`) is rejected as a whole by the upfront
validation, before any target is processed; per-target isolation holds
for well-formed targets: a target failing with an I/O error yields its
own failure result and does not abort the processing of another
target, which still succeeds. -/
theorem c2_batch_validation_and_isolation :
    (∀ (now : List Char) (fs : FS) (entries : List RawEntry) (e : RawEntry),
      e ∈ entries → validEntry e = false →
      appendMemoryBank now fs (some entries) =
        (ensureInitialized now fs, AppendResult.invalid)) ∧
    (∀ (now : List Char) (fs : FS) (n1 n2 : String) (e1 e2 : List Char),
      fs.dirExists = true →
      fs.broken.contains n1 = true →
      fs.broken.contains n2 = false →
      appendMemoryBank now fs
          (some [⟨some n1, some e1, none⟩, ⟨some n2, some e2, none⟩]) =
        ({ fs with files := appendData fs.files n2 (formatEntry now e2) },
         AppendResult.results [(n1, false), (n2, true)])) := by
  constructor
  · intro now fs entries e he hv
    have hall : entries.all validEntry = false := by
      cases hx : entries.all validEntry with
      | false => rfl
      | true => exact absurd (List.all_eq_true.mp hx e he) (by simp [hv])
    simp [appendMemoryBank, hall]
  · intro now fs n1 n2 e1 e2 hd hb1 hb2
    have hfs : ensureInitialized now fs = fs := ensureInitialized_of_dirExists now hd
    have hb1m : n1 ∈ fs.broken := by simpa using hb1
    have hb2m : ¬ n2 ∈ fs.broken := by simpa using hb2
    simp [appendMemoryBank, hfs, validEntry, processEntry, hb1m, hb2m]

/-- C2 counterexample: a two-target batch whose second target has no
`entry` field is rejected whole — the call returns the validation
error, not the per-target one-failure-one-success results the claim
asserts. -/
theorem c2_malformed_target_aborts_batch :
    appendMemoryBank "2025-01-01 00:00:00".data ⟨true, [], []⟩
        (some [⟨some "a.md", some "x".data, none⟩, ⟨some "b.md", none, none⟩]) =
      (⟨true, [], []⟩, AppendResult.invalid) := by decide

/-- C2 witness: the isolation part applied to a concrete state — the
broken first target fails, the second target still succeeds. -/
theorem c2_batch_isolation_witness :
    appendMemoryBank "2025-01-01 00:00:00".data
        ⟨true, [("good.md", "G".data)], ["bad.md"]⟩
        (some [⟨some "bad.md", some "x".data, none⟩,
               ⟨some "good.md", some "y".data, none⟩]) =
      (⟨true, [("good.md", "G\n[2025-01-01 00:00:00] - y\n".data)], ["bad.md"]⟩,
       AppendResult.results [("bad.md", false), ("good.md", true)]) := by
  have h := c2_batch_validation_and_isolation.2 "2025-01-01 00:00:00".data
    ⟨true, [("good.md", "G".data)], ["bad.md"]⟩ "bad.md" "good.md" "x".data "y".data
    (by decide) (by decide) (by decide)
  rw [h]
  decide

/-- C3 (amended): a section append on a missing file runs the section
algorithm on the seeded body (the timestamp-substituted catalog
template when the name is in the catalog, else the empty string), but
the written file retains the seeded content only when the header occurs
in the seeded body; when it does not, the fallback appends just the
header and the entry to the nonexistent file, so the written file does
not contain the seeded template. -/
theorem c3_missing_file_seeding :
    ∀ (now : List Char) (fs : FS) (name : String) (entryText hdr : List Char),
      fs.broken.contains name = false →
      lookupFile fs.files name = none →
      hdr.isEmpty = false →
      processEntry now fs name entryText (some hdr) =
        (match sectionUpdate (seedFor name now) hdr (formatEntry now entryText) with
         | some updated => ({ fs with files := setFile fs.files name updated }, true)
         | none =>
           ({ fs with files := setFile fs.files name
                                 ('\n' :: (hdr ++ '\n' :: formatEntry now entryText)) },
            true)) := by
  intro now fs name entryText hdr hb hl he
  have hb2 : ¬ name ∈ fs.broken := by simpa using hb
  cases hsu : sectionUpdate (seedFor name now) hdr (formatEntry now entryText) with
  | some u => simp [processEntry, hb2, hl, he, hsu]
  | none => simp [processEntry, hb2, hl, he, hsu, appendData, hl]

/-- C3 witness: the seeding theorem applied to a missing
`productContext.md` with a header that does occur in the template —
the written content keeps the whole seeded template. -/
theorem c3_missing_file_seeding_witness :
    processEntry "2025-01-01 00:00:00".data ⟨true, [], []⟩ "productContext.md"
        "hi".data (some "# Product Context".data) =
      (⟨true,
        [("productContext.md",
          ("# Product Context\n\nThis file provides a high-level overview...\n\n*" ++
            "\n[2025-01-01 00:00:00] - hi\n").data)],
        []⟩, true) := by
  have h := c3_missing_file_seeding "2025-01-01 00:00:00".data ⟨true, [], []⟩
    "productContext.md" "hi".data "# Product Context".data
    (by decide) (by decide) (by decide)
  rw [h]
  decide

/-- C3 counterexample: section append of entry `C` under header
`## Decision` with `decisionLog.md` missing (directory present, file
absent).  The header does not occur in the seeded template, so the
fallback writes only the header and entry: the written file does not
contain the template heading `# Decision Log` at all — the seeded
template content is discarded, against the claim. -/
theorem c3_template_discarded :
    lookupFile
        (processEntry "2025-01-01 00:00:00".data ⟨true, [], []⟩ "decisionLog.md"
          "C".data (some "## Decision".data)).1.files "decisionLog.md" =
      some "\n## Decision\n\n[2025-01-01 00:00:00] - C\n".data ∧
    containsSub "\n## Decision\n\n[2025-01-01 00:00:00] - C\n".data
        "# Decision Log".data = false := by decide

/-- C4 (amended): the validation of `appendMemoryBank` only requires
`file_name` and `entry` to be present strings — it does not reject
empty strings, so an empty `entry` is accepted and a write is
performed; a target with a missing field does fail the whole call, but
the ensure-initialized step has already run by then, so filesystem
access happens before the failed validation (the returned state is the
initialized one, and on a fresh root the directory is created). -/
theorem c4_validation_presence_only :
    (∀ (now : List Char) (fs : FS) (name : String),
      fs.dirExists = true →
      fs.broken.contains name = false →
      appendMemoryBank now fs (some [⟨some name, some [], none⟩]) =
        ({ fs with files := appendData fs.files name (formatEntry now []) },
         AppendResult.results [(name, true)])) ∧
    (∀ (now : List Char) (fs : FS) (e : RawEntry) (entries : List RawEntry),
      e ∈ entries → e.entry = none →
      appendMemoryBank now fs (some entries) =
        (ensureInitialized now fs, AppendResult.invalid)) ∧
    (∀ now : List Char,
      (appendMemoryBank now ⟨false, [], []⟩ (some [⟨none, none, none⟩])).1.dirExists
        = true) := by
  refine ⟨?_, ?_, ?_⟩
  · intro now fs name hd hb
    have hfs : ensureInitialized now fs = fs := ensureInitialized_of_dirExists now hd
    have hbm : ¬ name ∈ fs.broken := by simpa using hb
    simp [appendMemoryBank, hfs, validEntry, processEntry, hbm]
  · intro now fs e entries he hv
    have hall : entries.all validEntry = false := by
      cases hx : entries.all validEntry with
      | false => rfl
      | true =>
        exact absurd (List.all_eq_true.mp hx e he) (by simp [validEntry, hv])
    simp [appendMemoryBank, hall]
  · intro now
    simp [appendMemoryBank, validEntry, ensureInitialized]

/-- C4 counterexample: an append whose `entry` is the empty string is
not rejected — the call succeeds and writes the formatted empty entry
into a fresh store, performing filesystem work, where the claim
demands a `ValidationError` and no I/O. -/
theorem c4_empty_entry_not_rejected :
    (appendMemoryBank "2025-01-01 00:00:00".data ⟨false, [], []⟩
        (some [⟨some "note.md", some [], none⟩])).2 =
      AppendResult.results [("note.md", true)] ∧
    lookupFile (appendMemoryBank "2025-01-01 00:00:00".data ⟨false, [], []⟩
        (some [⟨some "note.md", some [], none⟩])).1.files "note.md" =
      some "\n[2025-01-01 00:00:00] - \n".data := by decide

/-- C4 witness: the empty-entry part of the amended theorem applied to
a concrete one-file store. -/
theorem c4_validation_witness :
    appendMemoryBank "2025-01-01 00:00:00".data ⟨true, [("a.md", "A".data)], []⟩
        (some [⟨some "a.md", some [], none⟩]) =
      (⟨true, [("a.md", "A\n[2025-01-01 00:00:00] - \n".data)], []⟩,
       AppendResult.results [("a.md", true)]) := by
  have h := c4_validation_presence_only.1 "2025-01-01 00:00:00".data
    ⟨true, [("a.md", "A".data)], []⟩ "a.md" (by decide) (by decide)
  rw [h]
  decide

/-- C7: reading an explicit non-empty list of names returns one entry
per requested name (the batch is never aborted), a missing or broken
file mapping to the null marker; in particular reading
`["missing.md"]` on a fresh store yields exactly the null marker for
that name and no error. -/
theorem c7_read_missing_yields_null :
    (∀ (now : List Char) (fs : FS) (name : String) (names : List String),
      (readMemoryBank now fs (some (name :: names))).2 =
        ReadResult.contents ((name :: names).map
          (fun n => (n, readFileOpt (ensureInitialized now fs) n)))) ∧
    (∀ (fs : FS) (n : String), lookupFile fs.files n = none → readFileOpt fs n = none) ∧
    (readMemoryBank "2025-01-01 00:00:00".data ⟨false, [], []⟩ (some ["missing.md"])).2 =
      ReadResult.contents [("missing.md", none)] := by
  refine ⟨?_, ?_, ?_⟩
  · intro now fs name names
    simp [readMemoryBank]
  · intro fs n h
    simp [readFileOpt, h]
  · decide

/-- C7 witness: the null-marker part of the theorem applied to a
concrete store where the requested file is absent. -/
theorem c7_read_missing_witness :
    lookupFile (FS.mk true [] []).files "missing.md" = none ∧
    readFileOpt ⟨true, [], []⟩ "missing.md" = none :=
  ⟨by decide, c7_read_missing_yields_null.2.1 ⟨true, [], []⟩ "missing.md" (by decide)⟩

/-- C10: an empty `section_header` is falsy in the JavaScript guard of
`appendMemoryBank`, so a target carrying `section_header = ""` is
processed exactly like a target with no section header at all: plain
end-of-file append, no header creation, no template seeding. -/
theorem c10_empty_header_is_plain_append :
    ∀ (now : List Char) (fs : FS) (name : String) (entryText : List Char),
      processEntry now fs name entryText (some []) =
        processEntry now fs name entryText none := by
  intro now fs name entryText
  simp [processEntry]

theorem joinStep_foldl_extends :
    ∀ (segs : List (List Char)) (acc : List (List Char)),
      (∀ s ∈ segs, s ≠ ['.', '.']) → acc <+: segs.foldl joinStep acc := by
  intro segs
  induction segs with
  | nil =>
    intro acc h
    exact List.prefix_refl acc
  | cons s rest ih =>
    intro acc h
    have hs : s ≠ ['.', '.'] := h s (by simp)
    have hrest : ∀ x ∈ rest, x ≠ ['.', '.'] := fun x hx => h x (by simp [hx])
    have step : acc <+: joinStep acc s := by
      unfold joinStep
      by_cases h1 : s = [] ∨ s = ['.']
      · simp [h1]
      · simp [h1, hs]
    rw [List.foldl_cons]
    exact step.trans (ih (joinStep acc s) hrest)

/-- C8 (amended): document names are joined to the root directory with
`path.join`; a name none of whose segments is a dot-dot resolves to a
path inside the root (the root is a prefix of the resolved path), but a
name containing a dot-dot segment can resolve outside the root. -/
theorem c8_resolvePath_containment :
    ∀ (root : List (List Char)) (name : List Char),
      (∀ seg ∈ splitSegs name, seg ≠ ['.', '.']) →
      root <+: resolvePath root name := by
  intro root name h
  unfold resolvePath
  exact joinStep_foldl_extends (splitSegs name) root h

/-- C8 counterexample: the caller-supplied name `../secret.md` resolves
to a path outside the memory-bank root — the operations read and write
wherever the dot-dot segments lead, against the claimed containment. -/
theorem c8_dotdot_escapes_root :
    resolvePath ["project".data, "memory-bank".data] "../secret.md".data =
      ["project".data, "secret.md".data] ∧
    ¬ ["project".data, "memory-bank".data] <+:
        resolvePath ["project".data, "memory-bank".data] "../secret.md".data := by
  decide

/-- C8 witness: the containment theorem applied to the plain name
`notes.md`. -/
theorem c8_resolvePath_witness :
    (∀ seg ∈ splitSegs "notes.md".data, seg ≠ ['.', '.']) ∧
    ["project".data, "memory-bank".data] <+:
      resolvePath ["project".data, "memory-bank".data] "notes.md".data :=
  ⟨by decide,
   c8_resolvePath_containment ["project".data, "memory-bank".data] "notes.md".data
     (by decide)⟩

theorem digitChar_ne_T : ∀ n, digitChar n ≠ 'T' := by
  intro n
  unfold digitChar
  split <;> decide

theorem noT_pad2 (n : Nat) : 'T' ∉ pad2 n := by
  simp only [pad2, List.mem_cons, List.not_mem_nil, or_false]
  push_neg
  exact ⟨fun h => digitChar_ne_T _ h.symm, fun h => digitChar_ne_T _ h.symm⟩

theorem noT_pad4 (n : Nat) : 'T' ∉ pad4 n := by
  simp only [pad4, List.mem_cons, List.not_mem_nil, or_false]
  push_neg
  exact ⟨fun h => digitChar_ne_T _ h.symm, fun h => digitChar_ne_T _ h.symm,
    fun h => digitChar_ne_T _ h.symm, fun h => digitChar_ne_T _ h.symm⟩

theorem noT_append {a b : List Char} (ha : 'T' ∉ a) (hb : 'T' ∉ b) : 'T' ∉ a ++ b := by
  simp [List.mem_append, ha, hb]

theorem noT_cons {c : Char} {l : List Char} (hc : 'T' ≠ c) (hl : 'T' ∉ l) :
    'T' ∉ c :: l := by
  simp [List.mem_cons, hc, hl]

theorem subIndex_before_T {a b : List Char} (ha : 'T' ∉ a) :
    subIndex ['T'] (a ++ 'T' :: b) = some a.length := by
  induction a with
  | nil => simp [subIndex, matchAt]
  | cons c a ih =>
    have hc : ¬ c = 'T' := fun h => ha (by simp [h])
    have ha2 : 'T' ∉ a := fun h => ha (by simp [h])
    have hm : matchAt (c :: (a ++ 'T' :: b)) ['T'] = false := by
      simp [matchAt, hc]
    simp [subIndex, hm, ih ha2]

theorem replaceFirst_T {a b : List Char} (ha : 'T' ∉ a) :
    replaceFirst (a ++ 'T' :: b) ['T'] [' '] = a ++ ' ' :: b := by
  have h1 : (a ++ 'T' :: b).take a.length = a := List.take_left a ('T' :: b)
  have h2 : (a ++ 'T' :: b).drop (a.length + 1) = b := by
    have hx : a ++ 'T' :: b = (a ++ ['T']) ++ b := by simp
    rw [hx, List.drop_left' (by simp)]
  simp [replaceFirst, subIndex_before_T ha, h1, h2]

/-- C9 (amended): `getCurrentTimestamp` renders the current instant as
`YYYY-MM-DD HH:MM:SS` — second precision, 19 characters, no timezone
suffix — but as the UTC reading of the instant (it is built from
`toISOString`), not as a local clock reading; the bounds on the fields
delimit the range in which the fixed-width model of `toISOString` is
faithful. -/
theorem c9_timestamp_utc_format :
    ∀ d : JsDate,
      d.utc.year ≤ 9999 → d.utc.month ≤ 99 → d.utc.day ≤ 99 →
      d.utc.hour ≤ 99 → d.utc.minute ≤ 99 → d.utc.second ≤ 99 →
      getCurrentTimestamp d = renderTimestamp d.utc ∧
      (getCurrentTimestamp d).length = 19 := by
  intro d h1 h2 h3 h4 h5 h6
  have hT : 'T' ∉ pad4 d.utc.year ++ '-' :: (pad2 d.utc.month ++ '-' :: pad2 d.utc.day) :=
    noT_append (noT_pad4 _)
      (noT_cons (by decide) (noT_append (noT_pad2 _) (noT_cons (by decide) (noT_pad2 _))))
  have hiso : toISOString d =
      (pad4 d.utc.year ++ '-' :: (pad2 d.utc.month ++ '-' :: pad2 d.utc.day)) ++
        'T' :: (pad2 d.utc.hour ++ ':' :: pad2 d.utc.minute ++ ':' :: pad2 d.utc.second ++
          '.' :: pad3 d.utc.millis ++ ['Z']) := by
    simp [toISOString]
  have hmain : getCurrentTimestamp d = renderTimestamp d.utc := by
    rw [getCurrentTimestamp, hiso, replaceFirst_T hT]
    have hsplit :
        (pad4 d.utc.year ++ '-' :: (pad2 d.utc.month ++ '-' :: pad2 d.utc.day)) ++
          ' ' :: (pad2 d.utc.hour ++ ':' :: pad2 d.utc.minute ++ ':' :: pad2 d.utc.second ++
            '.' :: pad3 d.utc.millis ++ ['Z']) =
        ((pad4 d.utc.year ++ '-' :: (pad2 d.utc.month ++ '-' :: pad2 d.utc.day)) ++
          ' ' :: (pad2 d.utc.hour ++ ':' :: pad2 d.utc.minute ++ ':' :: pad2 d.utc.second)) ++
          ('.' :: pad3 d.utc.millis ++ ['Z']) := by
      simp
    rw [hsplit, List.take_left' (by simp [pad4, pad2])]
    simp [renderTimestamp]
  exact ⟨hmain, by rw [hmain]; simp [renderTimestamp, pad4, pad2]⟩

/-- C9 counterexample: at an instant whose UTC reading is
`2025-06-15 12:00:00` while the local reading is `2025-06-15 14:00:00`
(a UTC+2 zone), the produced timestamp is the UTC rendering, not the
local one — the claim that the output is a local clock reading not
normalized to UTC is false. -/
theorem c9_renders_utc_not_local :
    getCurrentTimestamp ⟨⟨2025, 6, 15, 12, 0, 0, 0⟩, ⟨2025, 6, 15, 14, 0, 0, 0⟩⟩ ≠
      renderTimestamp
        (JsDate.localFields ⟨⟨2025, 6, 15, 12, 0, 0, 0⟩, ⟨2025, 6, 15, 14, 0, 0, 0⟩⟩) ∧
    getCurrentTimestamp ⟨⟨2025, 6, 15, 12, 0, 0, 0⟩, ⟨2025, 6, 15, 14, 0, 0, 0⟩⟩ =
      renderTimestamp
        (JsDate.utc ⟨⟨2025, 6, 15, 12, 0, 0, 0⟩, ⟨2025, 6, 15, 14, 0, 0, 0⟩⟩) := by
  decide

/-- C9 witness: the format theorem applied to a concrete instant. -/
theorem c9_timestamp_utc_format_witness :
    getCurrentTimestamp ⟨⟨2025, 6, 15, 12, 0, 0, 0⟩, ⟨2025, 6, 15, 14, 0, 0, 0⟩⟩ =
      "2025-06-15 12:00:00".data := by
  have h := (c9_timestamp_utc_format ⟨⟨2025, 6, 15, 12, 0, 0, 0⟩, ⟨2025, 6, 15, 14, 0, 0, 0⟩⟩
    (by decide) (by decide) (by decide) (by decide) (by decide) (by decide)).1
  rw [h]
  decide

end MemoryBank
